import Mathlib

/-!
Verification of the GeoPackage binary-geometry decoder
(`provider/gpkg/gpkgFormat.go`).

Shallow embedding conventions:
* a Go `[]byte` is a `List Nat`; the `uint8` element type of the Go slice is
  reflected by reducing every byte to `% 256` at the point it is read;
* Go `log.Fatal` terminates the process and Go slice-bound panics abort the
  decode, so both are modelled as `Except.error`; `log.Error` / `log.Warn`
  only log and let execution continue, so they are invisible to the model
  except for any in-band value the code returns alongside them;
* `float64` values are represented by their IEEE-754 bit patterns (a `Nat`):
  `math.Float64frombits` is a bijection on the 64-bit pattern and no claim
  inspects the numeric value of a double;
* machine integers are `Nat` / `Int` with explicit `% 2^w` where wrap-around
  matters (`toInt32` below).
-/

namespace Gpkg

/-- Byte-ordering flag `wkbXDR = 0` (big endian), from the source constants. -/
def wkbXDR : Nat := 0

/-- Byte-ordering flag `wkbNDR = 1` (little endian), from the source constants. -/
def wkbNDR : Nat := 1

/-- Abort causes of a decode.  `log.Fatal` calls and Go slice-bounds panics
both end the decode of the current blob; the constructor records which check
fired and the offending values (mirroring the formatted error message). -/
inductive DecodeErr where
  /-- a scalar decoder received a window of the wrong exact length -/
  | badLength (expected got : Nat)
  /-- `WKBLinearRing.Init` received fewer than 4 bytes -/
  | shortBuffer (need got : Nat)
  /-- a byte-order flag other than `wkbXDR`/`wkbNDR` -/
  | badByteOrder (flag : Nat)
  /-- `WKBPolygon.Init` saw a type code other than the polygon tag -/
  | typeMismatch (expected got : Nat)
  /-- `newWKBGeometry` returned nil and `readNextGeometry` fataled -/
  | unimplementedType (code : Nat)
  /-- Go slice/index expression out of bounds (runtime panic) -/
  | outOfBounds
deriving DecidableEq

/-- Go index expression `bs[i]`: panics when out of range, otherwise yields
the `uint8` element (hence `% 256`). -/
def byteAt (bs : List Nat) (i : Nat) : Except DecodeErr Nat :=
  if h : i < bs.length then .ok (bs.get ⟨i, h⟩ % 256) else .error .outOfBounds

/-- Go slice expression `bs[lo:hi]` (capacity equals length for every buffer
reaching the decoder): panics unless `lo ≤ hi ≤ len`. -/
def slice (bs : List Nat) (lo hi : Nat) : Except DecodeErr (List Nat) :=
  if lo ≤ hi ∧ hi ≤ bs.length then .ok ((bs.drop lo).take (hi - lo))
  else .error .outOfBounds

/-- Big-endian assembly of a byte list into an unsigned value, as
`encoding/binary.BigEndian` does; each element is a `uint8` (`% 256`). -/
def beBytes (bs : List Nat) : Nat :=
  bs.foldl (fun acc b => acc * 256 + b % 256) 0

/-- `bytesToUint32` from the source: exact 4-byte window (else `log.Fatal`),
then big- or little-endian assembly per the flag (other flags `log.Fatal`). -/
def bytesToUint32 (bytes : List Nat) (byteOrder : Nat) : Except DecodeErr Nat :=
  if bytes.length ≠ 4 then .error (.badLength 4 bytes.length)
  else if byteOrder = wkbXDR then .ok (beBytes bytes)
  else if byteOrder = wkbNDR then .ok (beBytes bytes.reverse)
  else .error (.badByteOrder byteOrder)

/-- `bytesToFloat64` from the source: exact 8-byte window (else `log.Fatal`),
assembly per the flag; result is the IEEE-754 bit pattern fed to
`math.Float64frombits`. -/
def bytesToFloat64 (bytes : List Nat) (byteOrder : Nat) : Except DecodeErr Nat :=
  if bytes.length ≠ 8 then .error (.badLength 8 bytes.length)
  else if byteOrder = wkbXDR then .ok (beBytes bytes)
  else if byteOrder = wkbNDR then .ok (beBytes bytes.reverse)
  else .error (.badByteOrder byteOrder)

/-- Reinterpret the low 32 bits of a natural as a two's-complement `int32`,
the net effect of the shift-and-or construction in `bytesToInt32`. -/
def toInt32 (n : Nat) : Int :=
  if n % 4294967296 < 2147483648 then ((n % 4294967296 : Nat) : Int)
  else ((n % 4294967296 : Nat) : Int) - 4294967296

/-- The `valueLittleEndian` computed by `bytesToInt32` (bit pattern
`b3 b2 b1 b0` read as `int32`). -/
def int32LE (bytes : List Nat) : Int := toInt32 (beBytes bytes.reverse)

/-- The `valueBigEndian` computed by `bytesToInt32` (bit pattern
`b0 b1 b2 b3` read as `int32`). -/
def int32BE (bytes : List Nat) : Int := toInt32 (beBytes bytes)

/-- `bytesToInt32` from the source.  Unlike its `uint32`/`float64` siblings it
never fatals: a wrong window length is only `log.Error`ed and the in-band
value `-1` is returned; an unknown byte-order flag leaves the Go zero value
`0` in `value`.  The `Except` result type keeps it composable with the other
scalar decoders — every path is `.ok`. -/
def bytesToInt32 (bytes : List Nat) (byteOrder : Nat) : Except DecodeErr Int :=
  if bytes.length ≠ 4 then
    .ok (-1)
  else
    .ok (if byteOrder = wkbNDR then int32LE bytes
         else if byteOrder = wkbXDR then int32BE bytes
         else 0)

/-- `WKBPoint`: two doubles, held as IEEE-754 bit patterns. -/
structure WKBPoint where
  x : Nat
  y : Nat
deriving DecidableEq

/-- `WKBPoint.Init`: exact 16-byte window (else `log.Fatal`); x from the
first 8 bytes, y from the next 8; returns 16 bytes consumed. -/
def pointInit (bytes : List Nat) (byteOrder : Nat) :
    Except DecodeErr (WKBPoint × Nat) :=
  if bytes.length ≠ 16 then .error (.badLength 16 bytes.length)
  else do
    let x ← bytesToFloat64 (bytes.take 8) byteOrder
    let y ← bytesToFloat64 ((bytes.drop 8).take 8) byteOrder
    .ok ({ x := x, y := y }, 16)

/-- `WKBLinearRing`: point count and decoded points. -/
structure WKBLinearRing where
  numPoints : Nat
  points : List WKBPoint
deriving DecidableEq

/-- The point loop of `WKBLinearRing.Init`: reads `count` windows
`bytes[i:i+16]`, advancing `i` by 16 each time; returns the final `i`. -/
def readPoints (bytes : List Nat) (byteOrder : Nat) :
    Nat → Nat → Except DecodeErr (List WKBPoint × Nat)
  | i, 0 => .ok ([], i)
  | i, count + 1 => do
      let w ← slice bytes i (i + 16)
      let (pt, _) ← pointInit w byteOrder
      let (pts, j) ← readPoints bytes byteOrder (i + 16) count
      .ok (pt :: pts, j)

/-- `WKBLinearRing.Init`: needs at least 4 bytes (else `log.Fatal`); reads
the uint32 point count from `bytes[0:4]`, then that many 16-byte points;
returns the ring and the bytes consumed (`4 + 16 * numPoints`). -/
def ringInit (bytes : List Nat) (byteOrder : Nat) :
    Except DecodeErr (WKBLinearRing × Nat) :=
  if bytes.length < 4 then .error (.shortBuffer 4 bytes.length)
  else do
    let w ← slice bytes 0 4
    let numPoints ← bytesToUint32 w byteOrder
    let (pts, i) ← readPoints bytes byteOrder 4 numPoints
    .ok ({ numPoints := numPoints, points := pts }, i)

/-- `WKBPolygon`: note that `WKBPolygon.Init` never assigns the struct field
`numRings` (it only uses the local variable), so the field keeps the Go zero
value `0` in every decoded polygon. -/
structure WKBPolygon where
  byteOrder : Nat
  wkbType : Nat
  numRings : Nat
  rings : List WKBLinearRing
deriving DecidableEq

/-- The ring loop of `WKBPolygon.Init`: each ring decodes from the suffix
`bytes[i:]` and reports its consumed length, which advances the cursor. -/
def readRings (bytes : List Nat) (byteOrder : Nat) :
    Nat → Nat → Except DecodeErr (List WKBLinearRing × Nat)
  | i, 0 => .ok ([], i)
  | i, count + 1 => do
      let (r, consumed) ← ringInit (bytes.drop i) byteOrder
      let (rs, j) ← readRings bytes byteOrder (i + consumed) count
      .ok (r :: rs, j)

/-- `WKBPolygon.Init`: byte-order flag at `bytes[0]`, uint32 type code at
`bytes[1:5]` (must be the polygon tag 3, else `log.Fatal`), uint32 ring count
at `bytes[5:9]`, then the rings; returns the polygon and the cursor. -/
def polygonInit (bytes : List Nat) : Except DecodeErr (WKBPolygon × Nat) := do
  let byteOrder ← byteAt bytes 0
  let w1 ← slice bytes 1 5
  let wkbType ← bytesToUint32 w1 byteOrder
  if wkbType ≠ 3 then .error (.typeMismatch 3 wkbType)
  else do
    let w2 ← slice bytes 5 9
    let numRings ← bytesToUint32 w2 byteOrder
    let (rings, i) ← readRings bytes byteOrder 9 numRings
    .ok ({ byteOrder := byteOrder, wkbType := wkbType, numRings := 0,
           rings := rings }, i)

/-- The decoded top-level geometry; only the polygon variant is implemented
in the source (`newWKBGeometry` case 3). -/
inductive WKBGeometry where
  | polygon (p : WKBPolygon)
deriving DecidableEq

/-- The constructor selected by `newWKBGeometry`'s switch. -/
inductive GeomCtor where
  | polygon
deriving DecidableEq

/-- `newWKBGeometry`: switch on the type code; case 3 yields a polygon, the
default arm `log.Error`s the offending code and returns nil (`none`). -/
def newWKBGeometry (geomType : Nat) : Option GeomCtor :=
  if geomType = 3 then some .polygon else none

/-- `readNextGeometry`: empty buffer yields `(nil, 0)`; otherwise reads the
byte-order flag and uint32 type code, dispatches via `newWKBGeometry`
(`log.Fatal` with the code when it returned nil — the `unimplementedType`
abort), and lets the constructed geometry consume the buffer. -/
def readNextGeometry (bytes : List Nat) :
    Except DecodeErr (Option WKBGeometry × Nat) :=
  if bytes.length = 0 then .ok (none, 0)
  else do
    let byteOrder ← byteAt bytes 0
    let w ← slice bytes 1 5
    let geomType ← bytesToUint32 w byteOrder
    match newWKBGeometry geomType with
    | none => .error (.unimplementedType geomType)
    | some .polygon => do
        let (p, n) ← polygonInit bytes
        .ok (some (.polygon p), n)

/-- The cursor loop of `readGeometries`.  The fuel only bounds the number of
loop iterations for Lean's termination checker; every Go iteration on a
non-exhausted buffer either aborts or consumes at least 9 bytes, so fuel
`bytes.length + 1` is never exhausted. -/
def readGeometriesLoop (bytes : List Nat) :
    Nat → Nat → List WKBGeometry → Except DecodeErr (List WKBGeometry × Nat)
  | 0, i, acc => .ok (acc.reverse, i)
  | fuel + 1, i, acc =>
      if i < bytes.length then do
        let (g, consumed) ← readNextGeometry (bytes.drop i)
        match g with
        | some g2 => readGeometriesLoop bytes fuel (i + consumed) (g2 :: acc)
        | none => readGeometriesLoop bytes fuel (i + consumed) acc
      else .ok (acc.reverse, i)

/-- `readGeometries`: decodes concatenated geometries until the cursor
reaches the buffer end, returning them in encounter order with the total
bytes consumed.  The final `i != byteCount` check only `log.Warn`s, so it
changes nothing observable in the model. -/
def readGeometries (bytes : List Nat) :
    Except DecodeErr (List WKBGeometry × Nat) :=
  readGeometriesLoop bytes (bytes.length + 1) 0 []

/-- Total byte size of an encoded ring sequence whose point counts are `ms`:
each ring is a 4-byte count plus 16 bytes per point. -/
def ringsSize : List Nat → Nat
  | [] => 0
  | m :: ms => (4 + 16 * m) + ringsSize ms

/-- Shape of a well-formed ring sequence inside blob `bs` starting at offset
`i`: each ring's leading uint32 (decoded with byte order `bo`) is its point
count, and the next ring starts right after its points. -/
def ringsWellFormed (bs : List Nat) (bo : Nat) : Nat → List Nat → Prop
  | _, [] => True
  | i, m :: ms =>
      bytesToUint32 ((bs.drop i).take 4) bo = .ok m ∧
      ringsWellFormed bs bo (i + (4 + 16 * m)) ms

/-- The `GeoPackageBinaryHeader` struct; doubles of the envelope are held as
IEEE-754 bit patterns, `headerSize` is a Go `int`. -/
structure GeoPackageBinaryHeader where
  initialized : Bool
  magic : Nat
  version : Nat
  flags : Nat
  flagsReady : Bool
  srs_id : Int
  envelope : List Nat
  headerSize : Int
deriving DecidableEq

namespace GeoPackageBinaryHeader

/-- The Go zero value of the struct (fresh `GeoPackageBinaryHeader{}`). -/
def zero : GeoPackageBinaryHeader :=
  { initialized := false, magic := 0, version := 0, flags := 0,
    flagsReady := false, srs_id := 0, envelope := [], headerSize := 0 }

/-- `isInitialized`: logs when false; the returned bool is the field. -/
def isInitialized (h : GeoPackageBinaryHeader) : Bool := h.initialized

/-- `Magic()`: the field when initialized, else 0. -/
def Magic (h : GeoPackageBinaryHeader) : Nat :=
  if h.isInitialized then h.magic else 0

/-- `Version()`: the field when initialized, else 0. -/
def Version (h : GeoPackageBinaryHeader) : Nat :=
  if h.isInitialized then h.version else 0

/-- `EnvelopeType()`: bits 1–3 of the flags byte (`(flags & 0xE) >> 1`) when
the flags are ready, else 0 (after logging). -/
def EnvelopeType (h : GeoPackageBinaryHeader) : Nat :=
  if h.flagsReady then (h.flags &&& 0xE) >>> 1 else 0

/-- `SRSId()`: the field when initialized, else -1. -/
def SRSId (h : GeoPackageBinaryHeader) : Int :=
  if h.isInitialized then h.srs_id else -1

/-- `Envelope()`: the field when initialized, else nil (`none`). -/
def Envelope (h : GeoPackageBinaryHeader) : Option (List Nat) :=
  if h.isInitialized then some h.envelope else none

/-- `Size()`: the field when initialized, else -1. -/
def Size (h : GeoPackageBinaryHeader) : Int :=
  if h.isInitialized then h.headerSize else -1

end GeoPackageBinaryHeader

/-- The srs_id section of `GeoPackageBinaryHeader.Init`: first decode is
always little-endian (`wkbNDR`); if implausible the retry byte order is
`littleEndian` unless that equals the header's byte order, in which case
`bigEndian` — i.e. the opposite of the header flag, not of the first
attempt; a still-implausible retry resets srs_id to 0. -/
def decodeSrs (w : List Nat) (headerByteOrder : Nat) : Except DecodeErr Int := do
  let srs0 ← bytesToInt32 w wkbNDR
  if srs0 < 0 ∨ srs0 > 9999 then do
    let newByteOrder := if (1 : Nat) = headerByteOrder then wkbXDR else wkbNDR
    let srs1 ← bytesToInt32 w newByteOrder
    if srs1 < 0 ∨ srs1 > 9999 then .ok 0 else .ok srs1
  else .ok srs0

/-- Pure characterization of `decodeSrs` on a 4-byte window (proved equal in
`decodeSrs_eq`). -/
def srsValue (w : List Nat) (headerByteOrder : Nat) : Int :=
  let le := int32LE w
  if le < 0 ∨ le > 9999 then
    let retry := if headerByteOrder = 1 then int32BE w else int32LE w
    if retry < 0 ∨ retry > 9999 then 0 else retry
  else le

/-- The unrolled envelope reads of `Init`: `count` doubles starting at byte
`start`, each an 8-byte window in the header's byte order. -/
def readEnvelope (geom : List Nat) (byteOrder : Nat) :
    Nat → Nat → Except DecodeErr (List Nat)
  | _, 0 => .ok []
  | start, count + 1 => do
      let w ← slice geom start (start + 8)
      let v ← bytesToFloat64 w byteOrder
      let rest ← readEnvelope geom byteOrder (start + 8) count
      .ok (v :: rest)

/-- The envelope switch of `Init`: the envelope-type code selects how many
doubles follow byte 8 and the header size `8 + 8 × count`; the default arm
(codes 5–7) only `log.Error`s and keeps an empty envelope with size 8. -/
def decodeEnvelope (geom : List Nat) (byteOrder eType : Nat) :
    Except DecodeErr (List Nat × Int) :=
  match eType with
  | 0 => .ok ([], 8)
  | 1 => do let e ← readEnvelope geom byteOrder 8 4; .ok (e, 8 + 4 * 8)
  | 2 => do let e ← readEnvelope geom byteOrder 8 6; .ok (e, 8 + 6 * 8)
  | 3 => do let e ← readEnvelope geom byteOrder 8 6; .ok (e, 8 + 6 * 8)
  | 4 => do let e ← readEnvelope geom byteOrder 8 8; .ok (e, 8 + 8 * 8)
  | _ => .ok ([], 8)

/-- `GeoPackageBinaryHeader.Init`: flags byte (`geom[3]`) first; its bit 0 is
the header byte order used for the magic and envelope.  The magic is
assembled as `geom[0] << 8 | geom[1]` in the little-endian branch and
`geom[1] << 8 | geom[0]` in the big-endian branch.  Version is `geom[2]`,
srs_id comes from `geom[4:8]` via `decodeSrs`, the envelope from the switch
on `EnvelopeType()`, and the result is marked initialized. -/
def GeoPackageBinaryHeader.Init (geom : List Nat) :
    Except DecodeErr GeoPackageBinaryHeader := do
  let flags ← byteAt geom 3
  let headerByteOrder := flags &&& 1
  let g0 ← byteAt geom 0
  let g1 ← byteAt geom 1
  let magic := if headerByteOrder = 1 then g0 * 256 + g1 else g1 * 256 + g0
  let version ← byteAt geom 2
  let w ← slice geom 4 8
  let srs ← decodeSrs w headerByteOrder
  let eType := GeoPackageBinaryHeader.EnvelopeType
    { GeoPackageBinaryHeader.zero with flags := flags, flagsReady := true }
  let (env, hSize) ← decodeEnvelope geom headerByteOrder eType
  .ok { initialized := true, magic := magic, version := version,
        flags := flags, flagsReady := true, srs_id := srs,
        envelope := env, headerSize := hSize }

/-! ### Helper lemmas -/

theorem exbind_ok {ε α β : Type} {x : Except ε α} {f : α → Except ε β} {b : β} :
    x >>= f = .ok b ↔ ∃ a, x = .ok a ∧ f a = .ok b := by
  cases x with
  | error e => simp [Bind.bind, Except.bind]
  | ok a => simp [Bind.bind, Except.bind]

theorem byteAt_eq {bs : List Nat} {i b : Nat} (hb : bs.get? i = some b) :
    byteAt bs i = .ok (b % 256) := by
  rcases List.get?_eq_some.mp hb with ⟨hlt, hget⟩
  unfold byteAt
  rw [dif_pos hlt, hget]

theorem slice_ok {bs : List Nat} {lo hi : Nat} (h1 : lo ≤ hi)
    (h2 : hi ≤ bs.length) :
    slice bs lo hi = .ok ((bs.drop lo).take (hi - lo)) := by
  unfold slice
  rw [if_pos ⟨h1, h2⟩]

theorem slice_ok_length {bs w : List Nat} {lo hi : Nat}
    (h : slice bs lo hi = .ok w) :
    w.length = hi - lo ∧ lo ≤ hi ∧ hi ≤ bs.length := by
  unfold slice at h
  split at h
  · rename_i hc
    injection h with h
    subst h
    refine ⟨?_, hc⟩
    rw [List.length_take, List.length_drop]
    omega
  · exact Except.noConfusion h

theorem bytesToInt32_ndr {w : List Nat} (hw : w.length = 4) :
    bytesToInt32 w 1 = .ok (int32LE w) := by
  unfold bytesToInt32
  rw [if_neg (by omega)]
  simp [wkbNDR]

theorem bytesToInt32_xdr {w : List Nat} (hw : w.length = 4) :
    bytesToInt32 w 0 = .ok (int32BE w) := by
  unfold bytesToInt32
  rw [if_neg (by omega)]
  simp [wkbNDR, wkbXDR]

theorem decodeSrs_eq {w : List Nat} (headerByteOrder : Nat)
    (hw : w.length = 4) :
    decodeSrs w headerByteOrder = .ok (srsValue w headerByteOrder) := by
  by_cases hle : int32LE w < 0 ∨ int32LE w > 9999
  · by_cases hbo : headerByteOrder = 1
    · subst hbo
      simp [decodeSrs, srsValue, wkbXDR, wkbNDR, bytesToInt32_ndr hw,
        bytesToInt32_xdr hw, hle, Bind.bind, Except.bind, apply_ite]
      split <;> omega
    · have h1 : ¬ (1 : Nat) = headerByteOrder := fun h => hbo h.symm
      simp [decodeSrs, srsValue, wkbXDR, wkbNDR, bytesToInt32_ndr hw,
        h1, hbo, hle, Bind.bind, Except.bind]
  · simp [decodeSrs, srsValue, wkbXDR, wkbNDR, bytesToInt32_ndr hw, hle,
      Bind.bind, Except.bind]

theorem readEnvelope_length {geom : List Nat} {bo : Nat} :
    ∀ count start env, readEnvelope geom bo start count = .ok env →
      env.length = count := by
  intro count
  induction count with
  | zero =>
      intro start env h
      unfold readEnvelope at h
      injection h with h
      subst h
      rfl
  | succ n ih =>
      intro start env h
      unfold readEnvelope at h
      rw [exbind_ok] at h
      obtain ⟨w, -, h⟩ := h
      rw [exbind_ok] at h
      obtain ⟨v, -, h⟩ := h
      rw [exbind_ok] at h
      obtain ⟨rest, hrest, h⟩ := h
      injection h with h
      subst h
      simp [ih _ _ hrest]

theorem decodeEnvelope_size {geom : List Nat} {bo e : Nat} {env : List Nat}
    {hSize : Int} (h : decodeEnvelope geom bo e = .ok (env, hSize)) :
    hSize = 8 + 8 * env.length ∧
      (e = 0 → hSize = 8) ∧ (e = 1 → hSize = 40) ∧
      (e = 2 ∨ e = 3 → hSize = 56) ∧ (e = 4 → hSize = 72) := by
  match e with
  | 0 =>
      unfold decodeEnvelope at h
      injection h with h
      rw [Prod.mk.injEq] at h
      obtain ⟨h1, h2⟩ := h
      subst h1
      refine ⟨by rw [← h2]; norm_num, fun _ => h2.symm, ?_, ?_, ?_⟩ <;> omega
  | 1 =>
      unfold decodeEnvelope at h
      rw [exbind_ok] at h
      obtain ⟨envl, henv, h⟩ := h
      injection h with h
      rw [Prod.mk.injEq] at h
      obtain ⟨h1, h2⟩ := h
      subst h1
      have hlen := readEnvelope_length _ _ _ henv
      refine ⟨by rw [← h2, hlen]; norm_num, ?_, fun _ => by omega, ?_, ?_⟩ <;>
        omega
  | 2 =>
      unfold decodeEnvelope at h
      rw [exbind_ok] at h
      obtain ⟨envl, henv, h⟩ := h
      injection h with h
      rw [Prod.mk.injEq] at h
      obtain ⟨h1, h2⟩ := h
      subst h1
      have hlen := readEnvelope_length _ _ _ henv
      refine ⟨by rw [← h2, hlen]; norm_num, ?_, ?_, fun _ => by omega, ?_⟩ <;>
        omega
  | 3 =>
      unfold decodeEnvelope at h
      rw [exbind_ok] at h
      obtain ⟨envl, henv, h⟩ := h
      injection h with h
      rw [Prod.mk.injEq] at h
      obtain ⟨h1, h2⟩ := h
      subst h1
      have hlen := readEnvelope_length _ _ _ henv
      refine ⟨by rw [← h2, hlen]; norm_num, ?_, ?_, fun _ => by omega, ?_⟩ <;>
        omega
  | 4 =>
      unfold decodeEnvelope at h
      rw [exbind_ok] at h
      obtain ⟨envl, henv, h⟩ := h
      injection h with h
      rw [Prod.mk.injEq] at h
      obtain ⟨h1, h2⟩ := h
      subst h1
      have hlen := readEnvelope_length _ _ _ henv
      refine ⟨by rw [← h2, hlen]; norm_num, ?_, ?_, ?_, fun _ => by omega⟩ <;>
        omega
  | (n + 5) =>
      unfold decodeEnvelope at h
      injection h with h
      rw [Prod.mk.injEq] at h
      obtain ⟨h1, h2⟩ := h
      subst h1
      refine ⟨by rw [← h2]; norm_num, ?_, ?_, ?_, ?_⟩ <;> omega

/-- Characterization of a successful `Init`: the decoded fields in terms of
the input bytes.  Every claim about decoded headers reduces to this. -/
theorem Init_ok_fields {geom : List Nat} {h : GeoPackageBinaryHeader}
    (hok : GeoPackageBinaryHeader.Init geom = .ok h) :
    ∃ flags g0 g1 version w env hSize,
      byteAt geom 3 = .ok flags ∧ byteAt geom 0 = .ok g0 ∧
      byteAt geom 1 = .ok g1 ∧ byteAt geom 2 = .ok version ∧
      slice geom 4 8 = .ok w ∧
      decodeEnvelope geom (flags &&& 1) ((flags &&& 14) >>> 1) =
        .ok (env, hSize) ∧
      h = { initialized := true,
            magic := if flags &&& 1 = 1 then g0 * 256 + g1 else g1 * 256 + g0,
            version := version, flags := flags, flagsReady := true,
            srs_id := srsValue w (flags &&& 1), envelope := env,
            headerSize := hSize } := by
  unfold GeoPackageBinaryHeader.Init at hok
  rw [exbind_ok] at hok
  obtain ⟨flags, h3, hok⟩ := hok
  simp only [exbind_ok] at hok
  obtain ⟨g0, h0, g1, h1, version, h2, w, hw, srs, hsrs, p, henv, hok⟩ := hok
  obtain ⟨env, hSize⟩ := p
  have hw4 : w.length = 4 := (slice_ok_length hw).1
  rw [decodeSrs_eq (flags &&& 1) hw4] at hsrs
  injection hsrs with hsrs
  have hety : GeoPackageBinaryHeader.EnvelopeType
      { GeoPackageBinaryHeader.zero with flags := flags, flagsReady := true } =
      (flags &&& 14) >>> 1 := rfl
  rw [hety] at henv
  refine ⟨flags, g0, g1, version, w, env, hSize, h3, h0, h1, h2, hw, henv, ?_⟩
  injection hok with hok
  rw [← hok, hsrs]

/-! ### Claim C1 -/

/-- C1 counterexample: a header blob whose flags byte has byte-order bit = 1
(little-endian) and whose first two bytes are `[0x50, 0x47]` decodes
`Magic() = 0x5047`, not `0x4750` as the claim states — the little-endian
branch of `Init` assembles `geom[0] << 8 | geom[1]`. -/
theorem C1_magic_counterexample :
    (GeoPackageBinaryHeader.Init [0x50, 0x47, 0x00, 0x01, 0, 0, 0, 0]).map
      GeoPackageBinaryHeader.Magic = .ok 0x5047 ∧ (0x5047 : Nat) ≠ 0x4750 :=
  ⟨rfl, by decide⟩

/-- C1 (amended): for every header blob whose flags byte (byte 3) has
byte-order bit = 1 and whose first two bytes are `[0x47, 0x50]` (the actual
GeoPackage magic bytes), after `Init` the accessor `Magic()` returns
`0x4750`: the little-endian branch assembles `geom[0] << 8 | geom[1]`. -/
theorem C1_magic (geom : List Nat) (h : GeoPackageBinaryHeader) (f : Nat)
    (hok : GeoPackageBinaryHeader.Init geom = .ok h)
    (h0 : geom.get? 0 = some 0x47) (h1 : geom.get? 1 = some 0x50)
    (h3 : geom.get? 3 = some f) (hf : f < 256) (hbit : f &&& 1 = 1) :
    h.Magic = 0x4750 := by
  obtain ⟨flags, g0, g1, version, w, env, hSize, hf3, hg0, hg1, -, -, -,
    hrec⟩ := Init_ok_fields hok
  have hflags : flags = f := by
    have e := (byteAt_eq h3).symm.trans hf3
    injection e with e
    rw [← e, Nat.mod_eq_of_lt hf]
  have hg0e : g0 = 0x47 := by
    have e := (byteAt_eq h0).symm.trans hg0
    injection e with e
    omega
  have hg1e : g1 = 0x50 := by
    have e := (byteAt_eq h1).symm.trans hg1
    injection e with e
    omega
  subst hrec hflags hg0e hg1e
  simp [GeoPackageBinaryHeader.Magic, GeoPackageBinaryHeader.isInitialized,
    hbit]

/-- C1 witness: the amended theorem applied to the concrete blob
`[0x47, 0x50, 0x00, 0x01, 0, 0, 0, 0]`. -/
theorem C1_magic_witness :
    ∃ h, GeoPackageBinaryHeader.Init [0x47, 0x50, 0x00, 0x01, 0, 0, 0, 0] =
        .ok h ∧ h.Magic = 0x4750 := by
  have hok : GeoPackageBinaryHeader.Init [0x47, 0x50, 0x00, 0x01, 0, 0, 0, 0] =
      .ok { initialized := true, magic := 18256, version := 0, flags := 1,
            flagsReady := true, srs_id := 0, envelope := [],
            headerSize := 8 } := rfl
  exact ⟨_, hok, C1_magic _ _ 1 hok rfl rfl rfl (by norm_num) rfl⟩

/-! ### Claim C2 -/

/-- C2 counterexample: on the 4 srs_id bytes `[0x00, 0x00, 0x10, 0xE6]` the
little-endian decode is negative (implausible) and the big-endian decode is
4326 (plausible), yet with a big-endian header flag `SRSId()` returns 0, not
4326 — the retry byte order is the opposite of the header flag, which for a
big-endian header repeats the little-endian first attempt. -/
theorem C2_srs_counterexample :
    int32LE [0x00, 0x00, 0x10, 0xE6] < 0 ∧
    int32BE [0x00, 0x00, 0x10, 0xE6] = 4326 ∧
    (GeoPackageBinaryHeader.Init
        [0x47, 0x50, 0x00, 0x00, 0x00, 0x00, 0x10, 0xE6]).map
      GeoPackageBinaryHeader.SRSId = .ok 0 ∧ (0 : Int) ≠ 4326 :=
  ⟨by decide, by decide, rfl, by decide⟩

/-- C2 (amended): the srs_id bytes are first decoded little-endian; if that
value lies outside [0, 9999] the decode is retried exactly once with the
byte order opposite to the header's byte-order flag — big-endian when the
flag bit is 1, but little-endian again (the same as the first attempt) when
the flag bit is 0.  Hence when the little-endian value is implausible,
`SRSId()` returns the plausible big-endian value only under a little-endian
flag; under a big-endian flag it returns 0. -/
theorem C2_srs (geom : List Nat) (h : GeoPackageBinaryHeader) (w : List Nat)
    (hok : GeoPackageBinaryHeader.Init geom = .ok h)
    (hw : slice geom 4 8 = .ok w) :
    (¬ (int32LE w < 0 ∨ int32LE w > 9999) → h.SRSId = int32LE w) ∧
    ((int32LE w < 0 ∨ int32LE w > 9999) →
      (h.flags &&& 1 = 1 →
        h.SRSId = if int32BE w < 0 ∨ int32BE w > 9999 then 0
                  else int32BE w) ∧
      (h.flags &&& 1 = 0 → h.SRSId = 0)) := by
  obtain ⟨flags, g0, g1, version, w', env, hSize, -, -, -, -, hw', -, hrec⟩ :=
    Init_ok_fields hok
  have hww : w' = w := by
    have e := hw'.symm.trans hw
    injection e
  subst hww hrec
  simp only [GeoPackageBinaryHeader.SRSId, GeoPackageBinaryHeader.isInitialized,
    if_true]
  refine ⟨fun hgood => by simp [srsValue, hgood], fun himpl => ⟨?_, ?_⟩⟩
  · intro hflag
    simp [srsValue, himpl, hflag]
  · intro hflag
    simp [srsValue, himpl, hflag]

/-- C2 witness: the amended theorem applied to the big-endian-flag blob of
the counterexample, concluding `SRSId() = 0`. -/
theorem C2_srs_witness :
    GeoPackageBinaryHeader.SRSId
      { initialized := true, magic := 20551, version := 0, flags := 0,
        flagsReady := true, srs_id := 0, envelope := [],
        headerSize := 8 } = 0 := by
  have hok : GeoPackageBinaryHeader.Init
      [0x47, 0x50, 0x00, 0x00, 0x00, 0x00, 0x10, 0xE6] =
      .ok { initialized := true, magic := 20551, version := 0, flags := 0,
            flagsReady := true, srs_id := 0, envelope := [],
            headerSize := 8 } := rfl
  have hw : slice [0x47, 0x50, 0x00, 0x00, 0x00, 0x00, 0x10, 0xE6] 4 8 =
      .ok [0x00, 0x00, 0x10, 0xE6] := rfl
  exact ((C2_srs _ _ _ hok hw).2 (by decide)).2 rfl

/-! ### Claim C3 -/

/-- C3 counterexample: the blob `[0x47, 0x50, 0x00, 0x0A, 0, 0, 0, 0]`
carries envelope-type code 5 (invalid), yet `Init` completes and the header
ends up initialized with the default size 8 — exactly the downstream-usable
partial header the claim rules out. -/
theorem C3_envelope_counterexample :
    (GeoPackageBinaryHeader.Init [0x47, 0x50, 0x00, 0x0A, 0, 0, 0, 0]).map
      (fun h => (h.initialized, h.EnvelopeType, h.Size)) =
      .ok (true, 5, 8) := rfl

/-- C3 (amended): an envelope-type code in {5, 6, 7} does not abort the
blob's decode: `Init` only logs the invalid code and completes, producing an
initialized header with an empty envelope and the default size 8. -/
theorem C3_envelope (geom : List Nat) (f : Nat) (hlen : 8 ≤ geom.length)
    (h3 : geom.get? 3 = some f) (hf : f < 256)
    (hcode : (f &&& 14) >>> 1 = 5 ∨ (f &&& 14) >>> 1 = 6 ∨
      (f &&& 14) >>> 1 = 7) :
    ∃ h, GeoPackageBinaryHeader.Init geom = .ok h ∧
      h.initialized = true ∧ h.envelope = [] ∧ h.Size = 8 := by
  have hg0 : geom.get? 0 = some (geom.get ⟨0, by omega⟩) := List.get?_eq_get _
  have hg1 : geom.get? 1 = some (geom.get ⟨1, by omega⟩) := List.get?_eq_get _
  have hg2 : geom.get? 2 = some (geom.get ⟨2, by omega⟩) := List.get?_eq_get _
  have hw : slice geom 4 8 = .ok ((geom.drop 4).take 4) :=
    slice_ok (by omega) hlen
  have hw4 : ((geom.drop 4).take 4).length = 4 := (slice_ok_length hw).1
  have hb3 : byteAt geom 3 = .ok f := by
    rw [byteAt_eq h3, Nat.mod_eq_of_lt hf]
  have henv : decodeEnvelope geom (f &&& 1) ((f &&& 14) >>> 1) =
      .ok ([], 8) := by
    rcases hcode with hc | hc | hc <;> rw [hc] <;> rfl
  obtain ⟨h, hInit⟩ : ∃ h, GeoPackageBinaryHeader.Init geom = .ok h := by
    refine ⟨{ initialized := true,
              magic := if f &&& 1 = 1
                then geom.get ⟨0, by omega⟩ % 256 * 256 +
                  geom.get ⟨1, by omega⟩ % 256
                else geom.get ⟨1, by omega⟩ % 256 * 256 +
                  geom.get ⟨0, by omega⟩ % 256,
              version := geom.get ⟨2, by omega⟩ % 256,
              flags := f, flagsReady := true,
              srs_id := srsValue ((geom.drop 4).take 4) (f &&& 1),
              envelope := [], headerSize := 8 }, ?_⟩
    unfold GeoPackageBinaryHeader.Init
    simp only [exbind_ok]
    exact ⟨f, hb3, _, byteAt_eq hg0, _, byteAt_eq hg1, _, byteAt_eq hg2,
      _, hw, _, decodeSrs_eq _ hw4, ([], 8), henv, rfl⟩
  obtain ⟨flags, g0, g1, version, w', env, hSize, hf3, -, -, -, -, henv',
    hrec⟩ := Init_ok_fields hInit
  have hflags : flags = f := by
    have e := hb3.symm.trans hf3
    injection e with e
    exact e.symm
  subst hflags
  have hpair := henv'.symm.trans henv
  injection hpair with hpair
  rw [Prod.mk.injEq] at hpair
  obtain ⟨he, hs⟩ := hpair
  subst hrec he hs
  exact ⟨_, hInit, rfl, rfl, rfl⟩

/-- C3 witness: the amended theorem applied to the concrete code-5 blob. -/
theorem C3_envelope_witness :
    ∃ h, GeoPackageBinaryHeader.Init [0x47, 0x50, 0x00, 0x0A, 0, 0, 0, 1] =
        .ok h ∧ h.initialized = true ∧ h.envelope = [] ∧ h.Size = 8 :=
  C3_envelope _ 0x0A (by decide) rfl (by decide) (by decide)

/-! ### Claim C4 -/

/-- C4 counterexample: on a 3-byte window `bytesToInt32` does not abort —
it returns the in-band value `-1` after only logging — while `bytesToUint32`
on the same window aborts with a length error. -/
theorem C4_int32_counterexample :
    bytesToInt32 [0, 0, 0] 1 = .ok (-1) ∧
    bytesToUint32 [0, 0, 0] 1 = .error (.badLength 4 3) :=
  ⟨rfl, rfl⟩

/-- C4 (amended): for every byte window whose length is not 4, the scalar
int32 decoder does NOT treat the wrong window length as fatal: it logs an
error and silently recovers by returning the in-band value `-1`, unlike the
uint32 decoder (shown here) and the float64 decoder, which abort the blob's
decode. -/
theorem C4_int32 (bs : List Nat) (byteOrder : Nat) (hlen : bs.length ≠ 4) :
    bytesToInt32 bs byteOrder = .ok (-1) ∧
    bytesToUint32 bs byteOrder = .error (.badLength 4 bs.length) := by
  constructor
  · unfold bytesToInt32
    rw [if_pos hlen]
  · unfold bytesToUint32
    rw [if_pos hlen]

/-- C4 witness: the amended theorem applied to a concrete 5-byte window. -/
theorem C4_int32_witness :
    bytesToInt32 [1, 2, 3, 4, 5] 0 = .ok (-1) ∧
    bytesToUint32 [1, 2, 3, 4, 5] 0 = .error (.badLength 4 5) :=
  C4_int32 _ 0 (by decide)

/-! ### Claim C5 -/

/-- C5: for every header blob decoded by `Init`, `Size()` is determined by
`EnvelopeType()`: type 0 yields 8, type 1 yields 40, types 2 and 3 yield 56,
type 4 yields 72 — equivalently, `Size()` is always
`8 + 8 × number of envelope doubles`. -/
theorem C5_size (geom : List Nat) (h : GeoPackageBinaryHeader)
    (hok : GeoPackageBinaryHeader.Init geom = .ok h) :
    (h.EnvelopeType = 0 → h.Size = 8) ∧ (h.EnvelopeType = 1 → h.Size = 40) ∧
    (h.EnvelopeType = 2 ∨ h.EnvelopeType = 3 → h.Size = 56) ∧
    (h.EnvelopeType = 4 → h.Size = 72) ∧
    h.Size = 8 + 8 * h.envelope.length := by
  obtain ⟨flags, g0, g1, version, w, env, hSize, -, -, -, -, -, henv, hrec⟩ :=
    Init_ok_fields hok
  subst hrec
  obtain ⟨hall, h0, h1, h23, h4⟩ := decodeEnvelope_size henv
  simp only [GeoPackageBinaryHeader.EnvelopeType, GeoPackageBinaryHeader.Size,
    GeoPackageBinaryHeader.isInitialized, if_true]
  exact ⟨h0, h1, h23, h4, hall⟩

/-- C5 witness: applied to a concrete envelope-type-1 blob of 40 bytes,
concluding `Size() = 40`. -/
theorem C5_size_witness :
    ∃ h, GeoPackageBinaryHeader.Init
        ([0x47, 0x50, 0x00, 0x02, 0, 0, 0, 0] ++ List.replicate 32 0) =
        .ok h ∧ h.Size = 40 := by
  have hok : GeoPackageBinaryHeader.Init
      ([0x47, 0x50, 0x00, 0x02, 0, 0, 0, 0] ++ List.replicate 32 0) =
      .ok { initialized := true, magic := 20551, version := 0, flags := 2,
            flagsReady := true, srs_id := 0, envelope := [0, 0, 0, 0],
            headerSize := 40 } := rfl
  exact ⟨_, hok, (C5_size _ _ hok).2.1 rfl⟩

/-! ### Claim C7 -/

/-- C7: for every byte window of length at least 4 whose leading uint32 in
the given byte order is 0, `WKBLinearRing.Init` decodes an empty ring and
returns exactly 4 bytes consumed. -/
theorem C7_empty_ring (bs : List Nat) (byteOrder : Nat) (hlen : 4 ≤ bs.length)
    (hz : bytesToUint32 (bs.take 4) byteOrder = .ok 0) :
    ringInit bs byteOrder = .ok ({ numPoints := 0, points := [] }, 4) := by
  unfold ringInit
  rw [if_neg (by omega)]
  have hs : slice bs 0 4 = .ok (bs.take 4) := by
    have h := slice_ok (by omega : (0 : Nat) ≤ 4) hlen
    rw [List.drop_zero] at h
    exact h
  simp only [exbind_ok]
  exact ⟨bs.take 4, hs, 0, hz, ([], 4), rfl, rfl⟩

/-- C7 witness: the theorem applied to the window `[0, 0, 0, 0]` in
big-endian order. -/
theorem C7_empty_ring_witness :
    ringInit [0, 0, 0, 0] 0 = .ok ({ numPoints := 0, points := [] }, 4) :=
  C7_empty_ring _ 0 (by decide) rfl

/-! ### Claim C8 -/

/-- C8: for every non-empty buffer whose decoded geometry type code is not
the implemented polygon code 3, dispatch fails with the `unimplementedType`
abort reporting the offending code — no bytes are consumed and no body
decode is attempted, since the decode returns no success value at all. -/
theorem C8_dispatch (bs : List Nat) (byteOrder geomType : Nat)
    (hne : bs.length ≠ 0)
    (hbo : byteAt bs 0 = .ok byteOrder)
    (ht : bytesToUint32 ((bs.drop 1).take 4) byteOrder = .ok geomType)
    (ht3 : geomType ≠ 3) :
    readNextGeometry bs = .error (.unimplementedType geomType) := by
  have hwlen : ((bs.drop 1).take 4).length = 4 := by
    unfold bytesToUint32 at ht
    by_contra hc
    rw [if_pos hc] at ht
    exact Except.noConfusion ht
  have hlen5 : 5 ≤ bs.length := by
    rw [List.length_take, List.length_drop] at hwlen
    omega
  have hs : slice bs 1 5 = .ok ((bs.drop 1).take 4) :=
    slice_ok (by omega) hlen5
  unfold readNextGeometry
  rw [if_neg hne]
  rw [List.drop_one] at ht hs
  simp [hbo, hs, ht, newWKBGeometry, ht3, Bind.bind, Except.bind]

/-- C8 witness: the theorem applied to a buffer with type code 99. -/
theorem C8_dispatch_witness :
    readNextGeometry [1, 99, 0, 0, 0] = .error (.unimplementedType 99) :=
  C8_dispatch _ 1 99 (by decide) rfl rfl (by decide)

/-! ### Claim C9 -/

/-- C9: on a `GeoPackageBinaryHeader` on which `Init` has not completed
(`initialized = false`), every accessor returns its fixed sentinel:
`Magic() = 0`, `Version() = 0`, `SRSId() = -1`, `Envelope() = nil`,
`Size() = -1`. -/
theorem C9_uninitialized (h : GeoPackageBinaryHeader)
    (hini : h.initialized = false) :
    h.Magic = 0 ∧ h.Version = 0 ∧ h.SRSId = -1 ∧ h.Envelope = none ∧
    h.Size = -1 := by
  simp [GeoPackageBinaryHeader.Magic, GeoPackageBinaryHeader.Version,
    GeoPackageBinaryHeader.SRSId, GeoPackageBinaryHeader.Envelope,
    GeoPackageBinaryHeader.Size, GeoPackageBinaryHeader.isInitialized, hini]

/-- C9 witness: the theorem applied to the Go zero value of the struct. -/
theorem C9_uninitialized_witness :
    GeoPackageBinaryHeader.zero.Magic = 0 ∧
    GeoPackageBinaryHeader.zero.Version = 0 ∧
    GeoPackageBinaryHeader.zero.SRSId = -1 ∧
    GeoPackageBinaryHeader.zero.Envelope = none ∧
    GeoPackageBinaryHeader.zero.Size = -1 :=
  C9_uninitialized _ rfl

/-! ### Claim C10 -/

/-- C10: on the empty buffer, `readGeometries` returns an empty geometry
sequence with exactly 0 bytes consumed (equal to the buffer length, so no
consumed-byte mismatch), and `readNextGeometry` returns no geometry and 0
bytes consumed. -/
theorem C10_empty :
    readGeometries [] = .ok ([], 0) ∧ readNextGeometry [] = .ok (none, 0) :=
  ⟨rfl, rfl⟩

/-! ### Claim C6 -/

theorem bytesToFloat64_ok {w : List Nat} {bo : Nat} (hw : w.length = 8)
    (hbo : bo = 0 ∨ bo = 1) :
    ∃ v, bytesToFloat64 w bo = .ok v := by
  rcases hbo with rfl | rfl <;> simp [bytesToFloat64, wkbXDR, wkbNDR, hw]

theorem pointInit_ok {w : List Nat} {bo : Nat} (hw : w.length = 16)
    (hbo : bo = 0 ∨ bo = 1) :
    ∃ pt, pointInit w bo = .ok (pt, 16) := by
  obtain ⟨x, hx⟩ := bytesToFloat64_ok (w := w.take 8)
    (by rw [List.length_take]; omega) hbo
  obtain ⟨y, hy⟩ := bytesToFloat64_ok (w := (w.drop 8).take 8)
    (by rw [List.length_take, List.length_drop]; omega) hbo
  refine ⟨⟨x, y⟩, ?_⟩
  unfold pointInit
  rw [if_neg (by omega)]
  simp only [exbind_ok]
  exact ⟨x, hx, y, hy, rfl⟩

theorem readPoints_ok {bs : List Nat} {bo : Nat} (hbo : bo = 0 ∨ bo = 1) :
    ∀ n i, i + 16 * n ≤ bs.length →
      ∃ pts, readPoints bs bo i n = .ok (pts, i + 16 * n) := by
  intro n
  induction n with
  | zero =>
      intro i _
      exact ⟨[], by simp [readPoints]⟩
  | succ k ih =>
      intro i hle
      have hslice : slice bs i (i + 16) = .ok ((bs.drop i).take 16) := by
        have h := slice_ok (by omega : i ≤ i + 16)
          (by omega : i + 16 ≤ bs.length)
        simpa using h
      have hwlen : ((bs.drop i).take 16).length = 16 := by
        rw [List.length_take, List.length_drop]
        omega
      obtain ⟨pt, hpt⟩ := pointInit_ok hwlen hbo
      obtain ⟨pts, hpts⟩ := ih (i + 16) (by omega)
      refine ⟨pt :: pts, ?_⟩
      simp only [readPoints, exbind_ok]
      refine ⟨_, hslice, (pt, 16), hpt, (pts, i + 16 + 16 * k), hpts, ?_⟩
      have e : i + 16 + 16 * k = i + 16 * (k + 1) := by ring
      rw [e]

theorem ringInit_ok {tail : List Nat} {bo m : Nat} (hbo : bo = 0 ∨ bo = 1)
    (hm : bytesToUint32 (tail.take 4) bo = .ok m)
    (hlen : 4 + 16 * m ≤ tail.length) :
    ∃ r, ringInit tail bo = .ok (r, 4 + 16 * m) := by
  obtain ⟨pts, hpts⟩ := @readPoints_ok tail bo hbo m 4 (by omega)
  have hs : slice tail 0 4 = .ok (tail.take 4) := by
    have h := slice_ok (by omega : (0 : Nat) ≤ 4)
      (by omega : 4 ≤ tail.length)
    rw [List.drop_zero] at h
    exact h
  refine ⟨⟨m, pts⟩, ?_⟩
  unfold ringInit
  rw [if_neg (by omega)]
  simp only [exbind_ok]
  exact ⟨tail.take 4, hs, m, hm, (pts, 4 + 16 * m), hpts, rfl⟩

theorem readRings_ok {bs : List Nat} {bo : Nat} (hbo : bo = 0 ∨ bo = 1) :
    ∀ ms : List Nat, ∀ i, ringsWellFormed bs bo i ms →
      i + ringsSize ms ≤ bs.length →
      ∃ rs, readRings bs bo i ms.length = .ok (rs, i + ringsSize ms) := by
  intro ms
  induction ms with
  | nil =>
      intro i _ _
      exact ⟨[], by simp [readRings, ringsSize]⟩
  | cons m ms ih =>
      intro i hwf hle
      simp only [ringsWellFormed] at hwf
      have hsz : ringsSize (m :: ms) = (4 + 16 * m) + ringsSize ms := rfl
      rw [hsz] at hle
      have hm : bytesToUint32 ((bs.drop i).take 4) bo = .ok m := hwf.1
      have hlen1 : 4 + 16 * m ≤ (bs.drop i).length := by
        rw [List.length_drop]
        omega
      obtain ⟨r, hr⟩ := ringInit_ok hbo hm hlen1
      obtain ⟨rs, hrs⟩ := ih (i + (4 + 16 * m)) hwf.2 (by omega)
      refine ⟨r :: rs, ?_⟩
      simp only [List.length_cons, readRings, exbind_ok]
      refine ⟨(r, 4 + 16 * m), hr,
        (rs, i + (4 + 16 * m) + ringsSize ms), hrs, ?_⟩
      have e : i + (4 + 16 * m) + ringsSize ms = i + ringsSize (m :: ms) := by
        rw [hsz]
        ring
      rw [e]

/-- C6: for every well-formed single-polygon blob — byte-order flag in
{0, 1}, type code 3, ring count `ms.length`, ring point counts `ms`, total
length exactly `9 + Σ (4 + 16·m)` — the bytes-consumed count reported by the
polygon decode equals the blob length exactly. -/
theorem C6_polygon_consumes_all (bs : List Nat) (bo : Nat) (ms : List Nat)
    (hb0 : bs.get? 0 = some bo) (hbo : bo = 0 ∨ bo = 1)
    (htype : bytesToUint32 ((bs.drop 1).take 4) bo = .ok 3)
    (hcount : bytesToUint32 ((bs.drop 5).take 4) bo = .ok ms.length)
    (hwf : ringsWellFormed bs bo 9 ms)
    (hlen : bs.length = 9 + ringsSize ms) :
    ∃ p, readNextGeometry bs = .ok (some (.polygon p), bs.length) := by
  have hlen9 : 9 ≤ bs.length := by omega
  have hb0' : byteAt bs 0 = .ok bo := by
    rw [byteAt_eq hb0]
    rcases hbo with rfl | rfl <;> rfl
  have hs1 : slice bs 1 5 = .ok ((bs.drop 1).take 4) := by
    have h := slice_ok (by omega : (1 : Nat) ≤ 5) (by omega : 5 ≤ bs.length)
    exact h
  have hs5 : slice bs 5 9 = .ok ((bs.drop 5).take 4) := by
    have h := slice_ok (by omega : (5 : Nat) ≤ 9) (by omega : 9 ≤ bs.length)
    exact h
  obtain ⟨rs, hrs⟩ := readRings_ok hbo ms 9 hwf (by omega)
  have hpoly : polygonInit bs =
      .ok ({ byteOrder := bo, wkbType := 3, numRings := 0, rings := rs },
        9 + ringsSize ms) := by
    unfold polygonInit
    simp only [exbind_ok]
    refine ⟨bo, hb0', _, hs1, 3, htype, ?_⟩
    rw [if_neg (by omega : ¬ (3 : Nat) ≠ 3)]
    simp only [exbind_ok]
    exact ⟨_, hs5, ms.length, hcount, (rs, 9 + ringsSize ms), hrs, rfl⟩
  refine ⟨{ byteOrder := bo, wkbType := 3, numRings := 0, rings := rs }, ?_⟩
  unfold readNextGeometry
  rw [if_neg (by omega)]
  simp only [exbind_ok]
  refine ⟨bo, hb0', _, hs1, 3, htype, ?_⟩
  simp only [newWKBGeometry, eq_self_iff_true, if_true]
  simp only [exbind_ok]
  exact ⟨_, hpoly, by rw [hlen]⟩

/-- C6 witness: the theorem applied to a concrete 13-byte blob holding one
polygon with a single empty ring. -/
theorem C6_polygon_witness :
    ∃ p, readNextGeometry [1, 3, 0, 0, 0, 1, 0, 0, 0, 0, 0, 0, 0] =
      .ok (some (.polygon p), 13) :=
  C6_polygon_consumes_all _ 1 [0] rfl (Or.inr rfl) rfl rfl
    (by simp only [ringsWellFormed]; exact ⟨rfl, trivial⟩) rfl

end Gpkg
